import Mathlib

/-!
# Verification of the terminal-tools interaction core

A shallow embedding, in Lean 4, of the shared interaction engine of the
`terminal-tools` repository: the pagination helper (`src/tui_common.rs`),
the static substring filters (`src/tools/find.rs`, `src/tools/env.rs`),
the directory loader (`src/tools/explore.rs`), the live ripgrep search
(`src/tools/search.rs`), the text-file preview truncation, and the ASCII
image renderer (`src/image_preview.rs`).

Modelling conventions:
* Rust `String` / `&str` values are modelled as `List Char`; Rust's byte-level
  substring operations are modelled at the char level (all concrete inputs
  used in witnesses are ASCII, where the two coincide).
* Rust `usize`/`u32` values are modelled as `Nat`; `saturating_sub` is Nat
  truncated subtraction.  Overflow does not occur at the values the code
  manipulates (list lengths, 8-bit pixel values, page sizes).
* Unicode `to_lowercase` is modelled per-char by `Char.toLower` (ASCII
  case mapping); none of the proved properties depend on the case table.
* Fallible IO (reading a file, running a process, decoding an image) is
  modelled by passing the outcome of the IO action as an explicit argument.
-/

set_option autoImplicit false
set_option maxRecDepth 8192

namespace TerminalTools

/-! ## String helpers (Rust `to_lowercase`, `contains`) -/

/-- Rust `str::to_lowercase`, modelled per-char (ASCII case mapping). -/
def lowerL (s : List Char) : List Char :=
  s.map Char.toLower

/-- Rust `str::contains(&str)`: `pat` occurs as a contiguous substring of
`hay`.  The empty pattern matches everywhere. -/
def strContains (hay pat : List Char) : Bool :=
  match hay with
  | [] => pat.isEmpty
  | _ :: t => pat.isPrefixOf hay || strContains t pat

/-- The empty pattern is contained in every string. -/
theorem strContains_nil (hay : List Char) : strContains hay [] = true := by
  cases hay <;> simp [strContains, List.isEmpty, List.isPrefixOf]

/-! ## `tui_common.rs`: `handle_page_navigation` (lines 238–268) -/

/-- The key codes distinguished by the interaction engine (`crossterm`'s
`KeyCode`, restricted to the constructors the embedded code inspects). -/
inductive KeyCode where
  | char (c : Char)
  | enter
  | up
  | down
  | backspace
  | esc
  | otherKey
  deriving DecidableEq, Repr

/-- `tui_common::handle_page_navigation`.  `ctrl` models
`modifiers.contains(KeyModifiers::CONTROL)`; `total_items.saturating_sub 1`
and `selected.saturating_sub page_size` are Nat truncated subtraction. -/
def handle_page_navigation (key_code : KeyCode) (ctrl : Bool)
    (current_selection : Option Nat) (total_items page_size : Nat) :
    Option Nat :=
  if key_code = .char 'f' ∧ ctrl = true then
    -- Page down
    match current_selection with
    | some selected => some (min (selected + page_size) (total_items - 1))
    | none => if total_items > 0 then some 0 else none
  else if key_code = .char 'b' ∧ ctrl = true then
    -- Page up
    match current_selection with
    | some selected => some (selected - page_size)
    | none => none
  else current_selection

/-- **C2.** For every `total_items = n > 0`, every `page_size`, and every
current selection: Ctrl-F returns an index strictly below `n`; Ctrl-B from
`some i` returns `some (i - page_size)` (truncated subtraction, hence never
below 0); from `none` with `n > 0`, Ctrl-F returns `some 0` and Ctrl-B
returns `none`; any other key/modifier combination leaves the selection
unchanged. -/
theorem handle_page_navigation_bounds (cur : Option Nat) (n p : Nat)
    (hn : 0 < n) :
    (∀ i, handle_page_navigation (.char 'f') true cur n p = some i → i < n)
    ∧ (∀ i, cur = some i →
        handle_page_navigation (.char 'b') true cur n p = some (i - p))
    ∧ (cur = none → handle_page_navigation (.char 'f') true cur n p = some 0)
    ∧ (cur = none → handle_page_navigation (.char 'b') true cur n p = none)
    ∧ (∀ (key : KeyCode) (ctrl : Bool),
        ¬(key = .char 'f' ∧ ctrl = true) → ¬(key = .char 'b' ∧ ctrl = true) →
        handle_page_navigation key ctrl cur n p = cur) := by
  refine ⟨?_, ?_, ?_, ?_, ?_⟩
  · intro i hi
    cases cur with
    | none =>
      simp [handle_page_navigation, hn] at hi
      omega
    | some s =>
      simp [handle_page_navigation] at hi
      omega
  · intro i hi
    subst hi
    simp [handle_page_navigation]
  · intro h
    subst h
    simp [handle_page_navigation, hn]
  · intro h
    subst h
    simp [handle_page_navigation]
  · intro key ctrl hf hb
    simp only [handle_page_navigation, if_neg hf, if_neg hb]

/-- Witness for `handle_page_navigation_bounds` at `cur = some 5`, `n = 8`,
`p = 10`: Ctrl-F clamps to the last index, which is below 8. -/
theorem handle_page_navigation_bounds_witness :
    0 < 8 ∧ ∀ i, handle_page_navigation (.char 'f') true (some 5) 8 10 = some i → i < 8 :=
  ⟨by decide, (handle_page_navigation_bounds (some 5) 8 10 (by decide)).1⟩

/-- **C10.** Ctrl-F with a stale `some i` selection and `total_items = 0`
returns `some 0` (from `min (i + p) (0 - 1) = min (i + p) 0 = 0` with
saturating subtraction), not `none`: the empty-list `none` safeguard only
applies when the current selection is already `none`. -/
theorem handle_page_navigation_stale_empty (i p : Nat) :
    handle_page_navigation (.char 'f') true (some i) 0 p = some 0 := by
  simp [handle_page_navigation]

/-- The selection reset every loader performs verbatim after replacing its
filtered list:
`if !list.is_empty() { state.select(Some(0)) } else { state.select(None) }`. -/
def resetSelection {α : Type} (l : List α) : Option Nat :=
  if l.isEmpty = false then some 0 else none

theorem resetSelection_eq {α : Type} (l : List α) :
    resetSelection l = if l.isEmpty then none else some 0 := by
  by_cases h : l.isEmpty <;> simp [resetSelection, h]

/-! ## `tools/find.rs`: `FileFinder::update_filter` (lines 94–116)

The struct keeps the fields `update_filter` reads or writes (`files`,
`filtered_files`, the `ListState` selection, `search_query`); the purely
visual fields (`preview_content`, `status_message`, `should_quit`) do not
feed back into filtering or selection and are omitted. -/

structure FileFinder where
  files : List (List Char)
  filtered_files : List (List Char)
  /-- `list_state.selected()` of the ratatui `ListState`. -/
  selected : Option Nat
  search_query : List Char
  deriving DecidableEq, Repr

/-- The filtered list computed by `FileFinder::update_filter`: all files if
the query is empty, else the files whose lower-cased path contains the
lower-cased query. -/
def finderFiltered (files : List (List Char)) (search_query : List Char) :
    List (List Char) :=
  if search_query.isEmpty then files
  else
    let query := lowerL search_query
    files.filter fun path => strContains (lowerL path) query

/-- `FileFinder::update_filter`: recompute `filtered_files`, then reset the
selection to `Some(0)` if non-empty, `None` otherwise.  (The source also
refreshes / clears the preview pane, which is not modelled.) -/
def FileFinder.update_filter (st : FileFinder) : FileFinder :=
  let filtered := finderFiltered st.files st.search_query
  { st with filtered_files := filtered, selected := resetSelection filtered }

/-! ## `tools/env.rs`: `EnvBrowser::update_filter` (lines 53–74) -/

structure EnvBrowser where
  env_vars : List (List Char × List Char)
  filtered_vars : List (List Char × List Char)
  selected : Option Nat
  search_query : List Char
  deriving DecidableEq, Repr

/-- The filtered list computed by `EnvBrowser::update_filter`: an entry
matches if its key or its value, lower-cased, contains the lower-cased
query. -/
def envFiltered (vars : List (List Char × List Char))
    (search_query : List Char) : List (List Char × List Char) :=
  if search_query.isEmpty then vars
  else
    let query := lowerL search_query
    vars.filter fun kv =>
      strContains (lowerL kv.1) query || strContains (lowerL kv.2) query

/-- `EnvBrowser::update_filter`: recompute `filtered_vars`, then reset the
selection to `Some(0)` if non-empty, `None` otherwise. -/
def EnvBrowser.update_filter (st : EnvBrowser) : EnvBrowser :=
  let filtered := envFiltered st.env_vars st.search_query
  { st with filtered_vars := filtered, selected := resetSelection filtered }

/-! ### Filter lemmas shared by the claims -/

theorem finderFiltered_sublist (files : List (List Char)) (q : List Char) :
    (finderFiltered files q).Sublist files := by
  unfold finderFiltered
  split
  · exact List.Sublist.refl files
  · exact List.filter_sublist files

theorem finderFiltered_mem (files : List (List Char)) (q : List Char) :
    ∀ p ∈ finderFiltered files q, strContains (lowerL p) (lowerL q) = true := by
  intro p hp
  unfold finderFiltered at hp
  split at hp
  · rename_i hq
    have : q = [] := by simpa [List.isEmpty_iff] using hq
    subst this
    simpa [lowerL] using strContains_nil (lowerL p)
  · simp only [List.mem_filter] at hp
    exact hp.2

theorem envFiltered_sublist (vars : List (List Char × List Char))
    (q : List Char) : (envFiltered vars q).Sublist vars := by
  unfold envFiltered
  split
  · exact List.Sublist.refl vars
  · exact List.filter_sublist vars

theorem envFiltered_mem (vars : List (List Char × List Char)) (q : List Char) :
    ∀ kv ∈ envFiltered vars q,
      (strContains (lowerL kv.1) (lowerL q)
        || strContains (lowerL kv.2) (lowerL q)) = true := by
  intro kv hkv
  unfold envFiltered at hkv
  split at hkv
  · rename_i hq
    have : q = [] := by simpa [List.isEmpty_iff] using hq
    subst this
    simp [lowerL, strContains_nil]
  · simp only [List.mem_filter] at hkv
    exact hkv.2

theorem finder_update_filter_idem (st : FileFinder) :
    st.update_filter.update_filter = st.update_filter := by
  simp [FileFinder.update_filter]

theorem env_update_filter_idem (st : EnvBrowser) :
    st.update_filter.update_filter = st.update_filter := by
  simp [EnvBrowser.update_filter]

/-! ## `tools/explore.rs`: `FileExplorer::load_directory` (lines 57–126) -/

structure FileEntry where
  name : List Char
  is_directory : Bool
  size : Option Nat
  is_parent : Bool
  deriving DecidableEq, Repr

/-- One entry as handed to `load_directory` by `fs::read_dir` (the
filesystem outcome is an explicit argument of the embedding): its file
name, whether `path.is_dir()`, and `fs::metadata(..).map(|m| m.len())`. -/
structure RawDirEntry where
  name : List Char
  is_dir : Bool
  len : Option Nat
  deriving DecidableEq, Repr

/-- Lexicographic comparison of char lists (Rust `str::cmp` compares UTF-8
bytes, which agrees with code-point order). -/
def cmpCharList : List Char → List Char → Ordering
  | [], [] => .eq
  | [], _ :: _ => .lt
  | _ :: _, [] => .gt
  | a :: as, b :: bs =>
    match compare a b with
    | .eq => cmpCharList as bs
    | o => o

/-- The comparator of `load_directory`'s `sort_by`: directories first, then
files, both by lower-cased name. -/
def entryCmp (a b : FileEntry) : Ordering :=
  match a.is_directory, b.is_directory with
  | true, false => .lt
  | false, true => .gt
  | _, _ => cmpCharList (lowerL a.name) (lowerL b.name)

/-- `FileExplorer::load_directory`, as a function of the filesystem view:
`hasParent` is `current_dir.parent().is_some()`, `readDir` the outcome of
`fs::read_dir(&current_dir)`.  Returns the new `entries` and the reset
selection (`Some(0)` if non-empty, else `None`). -/
def load_directory (hasParent : Bool) (readDir : Option (List RawDirEntry)) :
    List FileEntry × Option Nat :=
  let parentEntries : List FileEntry :=
    if hasParent then
      [{ name := ['.', '.'], is_directory := true, size := none,
         is_parent := true }]
    else []
  let children : List FileEntry :=
    match readDir with
    | some des =>
      -- Skip hidden files (starting with '.'); a directory listing never
      -- yields a literal ".." so the `name != ".."` guard passes for kept
      -- names, but it is embedded as written.
      (des.filter fun e =>
        !(List.isPrefixOf ['.'] e.name && !(e.name == ['.', '.']))).map
        fun e =>
          { name := e.name, is_directory := e.is_dir,
            size := if e.is_dir then none else e.len, is_parent := false }
    | none => []
  -- Stable sort: directories first, then files, both alphabetically.
  let sorted := children.mergeSort fun a b => !(entryCmp a b == .gt)
  let entries := parentEntries ++ sorted
  (entries, resetSelection entries)

/-! ## `tools/search.rs`: `LiveSearchBrowser` (lines 421–692) -/

structure SearchResult where
  file_path : List Char
  line_number : Nat
  line_content : List Char
  matched_text : List Char
  deriving DecidableEq, Repr

/-- The captured outcome of the spawned `rg` process: `output.status.success()`
and the lines of `String::from_utf8_lossy(&output.stdout)`. -/
structure ProcOutput where
  success : Bool
  stdout_lines : List (List Char)
  deriving DecidableEq, Repr

/-- The `LiveSearchBrowser` session fields that feed the search/selection
logic (display-only fields `status_message`, `preview_content`,
`is_searching` and the constant search configuration are omitted). -/
structure LiveSearchBrowser where
  search_query : List Char
  results : List SearchResult
  selected : Option Nat
  deriving DecidableEq, Repr

/-- Split off everything before the first occurrence of `sep`. -/
def splitFirst (sep : Char) : List Char → Option (List Char × List Char)
  | [] => none
  | c :: t =>
    if c = sep then some ([], t)
    else (splitFirst sep t).map fun p => (c :: p.1, p.2)

/-- Rust `str::splitn(n, sep)`: at most `n` pieces, the last piece keeps the
remaining separators. -/
def splitn (sep : Char) : Nat → List Char → List (List Char)
  | 0, _ => []
  | 1, s => [s]
  | n + 2, s =>
    match splitFirst sep s with
    | none => [s]
    | some (a, rest) => a :: splitn sep (n + 1) rest

/-- Decimal digit parse of a nonempty all-digit string. -/
def decDigits (s : List Char) : Option Nat :=
  if s.isEmpty then none
  else if s.all Char.isDigit then
    some (s.foldl (fun acc c => acc * 10 + (c.toNat - '0'.toNat)) 0)
  else none

/-- Rust `str::parse::<u32>()`: an optional leading `'+'`, then one or more
decimal digits, rejecting values above `u32::MAX`. -/
def parseU32 (s : List Char) : Option Nat :=
  let digits := match s with
    | '+' :: t => t
    | _ => s
  match decDigits digits with
  | some v => if v ≤ 4294967295 then some v else none
  | none => none

/-- Rust `str::find(&str)`: index of the first occurrence of `pat`. -/
def findSub (pat : List Char) : List Char → Option Nat
  | [] => if pat.isPrefixOf [] then some 0 else none
  | c :: t =>
    if pat.isPrefixOf (c :: t) then some 0
    else (findSub pat t).map (· + 1)

/-- `LiveSearchBrowser::extract_match` (lines 545–557): slice of
`line_content` where the lower-cased query first occurs in the lower-cased
content, falling back to the query itself. -/
def extract_match (search_query line_content : List Char) : List Char :=
  let pattern_lower := lowerL search_query
  let content_lower := lowerL line_content
  match findSub pattern_lower content_lower with
  | some start =>
    if start + search_query.length ≤ line_content.length then
      (line_content.drop start).take search_query.length
    else search_query
  | none => search_query

/-- `LiveSearchBrowser::parse_ripgrep_line` (lines 525–542): split the line
into at most three `:`-separated fields; require three fields with the
second parsing as `u32`, else `None`. -/
def parse_ripgrep_line (search_query line : List Char) : Option SearchResult :=
  let parts := splitn ':' 3 line
  if 3 ≤ parts.length then
    match parseU32 (parts.getD 1 []) with
    | some line_number =>
      let line_content := parts.getD 2 []
      some { file_path := parts.getD 0 [], line_number := line_number,
             line_content := line_content,
             matched_text := extract_match search_query line_content }
    | none => none
  else none

/-- `LiveSearchBrowser::perform_live_search` (lines 465–522), as a function
of the spawned process's outcome.  Returns the new state together with the
number of processes spawned by the call (0 or 1).  Note the early return for
queries shorter than 2 characters clears `results` but leaves the
`ListState` selection untouched. -/
def perform_live_search (st : LiveSearchBrowser) (out : ProcOutput) :
    LiveSearchBrowser × Nat :=
  if st.search_query.length < 2 then
    ({ st with results := [] }, 0)
  else
    let results :=
      if out.success then
        out.stdout_lines.filterMap (parse_ripgrep_line st.search_query)
      else []
    ({ st with results := results, selected := resetSelection results }, 1)

/-- The query-editing keystrokes of `LiveSearchBrowser::handle_input`
(lines 672–686). -/
inductive SearchKeystroke where
  | charKey (c : Char)
  | backspaceKey
  deriving DecidableEq, Repr

/-- The `KeyCode::Char(c)` / `KeyCode::Backspace` arms of
`LiveSearchBrowser::handle_input`: mutate the query, then either clear
everything (empty query after backspace) or re-run the live search.  Also
returns the number of processes spawned. -/
def LiveSearchBrowser.handle_search_keystroke (st : LiveSearchBrowser)
    (k : SearchKeystroke) (out : ProcOutput) : LiveSearchBrowser × Nat :=
  match k with
  | .charKey c =>
    perform_live_search { st with search_query := st.search_query ++ [c] } out
  | .backspaceKey =>
    let q := st.search_query.dropLast
    if q.isEmpty then
      ({ st with search_query := q, results := [], selected := none }, 0)
    else
      perform_live_search { st with search_query := q } out

/-! ### Selection-reset lemmas -/

theorem finder_update_filter_view (st : FileFinder) :
    st.update_filter.filtered_files = finderFiltered st.files st.search_query := by
  simp [FileFinder.update_filter]

theorem finder_update_filter_selected (st : FileFinder) :
    st.update_filter.selected =
      if st.update_filter.filtered_files.isEmpty then none else some 0 := by
  simp [FileFinder.update_filter, resetSelection_eq]

theorem env_update_filter_view (st : EnvBrowser) :
    st.update_filter.filtered_vars = envFiltered st.env_vars st.search_query := by
  simp [EnvBrowser.update_filter]

theorem env_update_filter_selected (st : EnvBrowser) :
    st.update_filter.selected =
      if st.update_filter.filtered_vars.isEmpty then none else some 0 := by
  simp [EnvBrowser.update_filter, resetSelection_eq]

theorem load_directory_selected (hasParent : Bool)
    (readDir : Option (List RawDirEntry)) :
    (load_directory hasParent readDir).2 =
      if (load_directory hasParent readDir).1.isEmpty then none else some 0 := by
  simp only [load_directory]
  exact resetSelection_eq _

theorem perform_live_search_short (st : LiveSearchBrowser) (out : ProcOutput)
    (h : st.search_query.length < 2) :
    perform_live_search st out = ({ st with results := [] }, 0) := by
  simp [perform_live_search, h]

theorem perform_live_search_long (st : LiveSearchBrowser) (out : ProcOutput)
    (h : 2 ≤ st.search_query.length) :
    (perform_live_search st out).2 = 1
    ∧ (perform_live_search st out).1.results =
        (if out.success then
          out.stdout_lines.filterMap (parse_ripgrep_line st.search_query)
        else [])
    ∧ (perform_live_search st out).1.selected =
        (if (perform_live_search st out).1.results.isEmpty then none
         else some 0) := by
  have h' : ¬ st.search_query.length < 2 := by omega
  simp [perform_live_search, h', resetSelection_eq]

/-- A reset selection `some i` is always a valid index. -/
theorem selected_lt_of_reset {α : Type} (l : List α) (sel : Option Nat)
    (hsel : sel = if l.isEmpty then none else some 0) :
    ∀ i, sel = some i → i < l.length := by
  intro i hi
  subst hsel
  by_cases h : l.isEmpty
  · simp [h] at hi
  · simp [h] at hi
    subst hi
    exact List.length_pos.mpr (by simpa [List.isEmpty_iff] using h)

/-! ### Concrete session states used by witnesses -/

/-- The spec's end-to-end scenario: files `main.rs`, `lib.rs`, `README.md`,
query `rs`. -/
def ffScenario : FileFinder :=
  { files := [['m', 'a', 'i', 'n', '.', 'r', 's'],
              ['l', 'i', 'b', '.', 'r', 's'],
              ['R', 'E', 'A', 'D', 'M', 'E', '.', 'm', 'd']],
    filtered_files := [], selected := none,
    search_query := ['r', 's'] }

def envScenario : EnvBrowser :=
  { env_vars := [(['P', 'A', 'T', 'H'], ['/', 'b', 'i', 'n'])],
    filtered_vars := [], selected := none, search_query := ['p', 'a'] }

/-- A live-search state as reached just after a backspace shrinks the query
from `"ab"` to `"a"` but before `perform_live_search` runs: the previous
search's results and `Some(0)` selection are still in place. -/
def staleLiveState : LiveSearchBrowser :=
  { search_query := ['a'],
    results := [{ file_path := ['f'], line_number := 1,
                  line_content := ['a', 'b'], matched_text := ['a', 'b'] }],
    selected := some 0 }

def liveScenario : LiveSearchBrowser :=
  { search_query := ['a', 'b'], results := [], selected := none }

def liveScenario1 : LiveSearchBrowser :=
  { search_query := ['a'], results := [], selected := none }

/-- **C1 counterexample.** `perform_live_search` on a query of length 1
(reachable by backspacing from a 2-character query whose search had
results) clears the result set but leaves the selection at `Some(0)`:
with the filtered set empty, the selection is not `None`, refuting the
claimed invariant for `LiveSearchBrowser::perform_live_search`. -/
theorem perform_live_search_stale_selection :
    (perform_live_search staleLiveState
      { success := true, stdout_lines := [] }).1.results = []
    ∧ (perform_live_search staleLiveState
      { success := true, stdout_lines := [] }).1.selected = some 0 := by
  constructor <;> rfl

/-- **C1 (amended).** After `FileFinder::update_filter`,
`EnvBrowser::update_filter`, `FileExplorer::load_directory`, and
`LiveSearchBrowser::perform_live_search` *with a query of length ≥ 2*, the
selection is `Some(0)` iff the new filtered set is non-empty and `None` iff
it is empty, so `Some(i)` implies `i < filtered.len()`.  When the live
search runs with a query of length < 2 it clears the result set but leaves
the selection unchanged (it may stay `Some(i)` from the previous search). -/
theorem selection_reset_invariant (ff : FileFinder) (env : EnvBrowser)
    (hasParent : Bool) (readDir : Option (List RawDirEntry))
    (ls : LiveSearchBrowser) (out : ProcOutput) :
    (ff.update_filter.selected =
      if ff.update_filter.filtered_files.isEmpty then none else some 0)
    ∧ (∀ i, ff.update_filter.selected = some i →
        i < ff.update_filter.filtered_files.length)
    ∧ (env.update_filter.selected =
      if env.update_filter.filtered_vars.isEmpty then none else some 0)
    ∧ (∀ i, env.update_filter.selected = some i →
        i < env.update_filter.filtered_vars.length)
    ∧ ((load_directory hasParent readDir).2 =
      if (load_directory hasParent readDir).1.isEmpty then none else some 0)
    ∧ (∀ i, (load_directory hasParent readDir).2 = some i →
        i < (load_directory hasParent readDir).1.length)
    ∧ (2 ≤ ls.search_query.length →
        (perform_live_search ls out).1.selected =
          (if (perform_live_search ls out).1.results.isEmpty then none
           else some 0)
        ∧ ∀ i, (perform_live_search ls out).1.selected = some i →
            i < (perform_live_search ls out).1.results.length)
    ∧ (ls.search_query.length < 2 →
        (perform_live_search ls out).1.results = []
        ∧ (perform_live_search ls out).1.selected = ls.selected) := by
  refine ⟨finder_update_filter_selected ff,
    selected_lt_of_reset _ _ (finder_update_filter_selected ff),
    env_update_filter_selected env,
    selected_lt_of_reset _ _ (env_update_filter_selected env),
    load_directory_selected hasParent readDir,
    selected_lt_of_reset _ _ (load_directory_selected hasParent readDir),
    fun h2 => ⟨(perform_live_search_long ls out h2).2.2,
      selected_lt_of_reset _ _ (perform_live_search_long ls out h2).2.2⟩,
    fun h1 => ?_⟩
  rw [perform_live_search_short ls out h1]
  exact ⟨rfl, rfl⟩

/-- Witness for `selection_reset_invariant`: on the spec's scenario the
finder's reset selection `Some(0)` is a valid index into the two `.rs`
matches. -/
theorem selection_reset_invariant_witness :
    0 < ffScenario.update_filter.filtered_files.length :=
  (selection_reset_invariant ffScenario envScenario true none
    liveScenario { success := true, stdout_lines := [] }).2.1 0 (by decide)

/-- **C3.** The static substring filters of `FileFinder` and `EnvBrowser`
return a sublist of the original entry set (subset, original relative
order) in which every entry has a searchable field whose lower-cased text
contains the lower-cased query as a substring; re-running the filter with
the same query leaves the whole session state (filtered set and selection)
unchanged. -/
theorem static_filter_correct (ff : FileFinder) (env : EnvBrowser) :
    ff.update_filter.filtered_files.Sublist ff.files
    ∧ (∀ p ∈ ff.update_filter.filtered_files,
        strContains (lowerL p) (lowerL ff.search_query) = true)
    ∧ ff.update_filter.update_filter = ff.update_filter
    ∧ env.update_filter.filtered_vars.Sublist env.env_vars
    ∧ (∀ kv ∈ env.update_filter.filtered_vars,
        (strContains (lowerL kv.1) (lowerL env.search_query)
          || strContains (lowerL kv.2) (lowerL env.search_query)) = true)
    ∧ env.update_filter.update_filter = env.update_filter := by
  refine ⟨?_, ?_, finder_update_filter_idem ff, ?_, ?_,
    env_update_filter_idem env⟩
  · rw [finder_update_filter_view]
    exact finderFiltered_sublist _ _
  · rw [finder_update_filter_view]
    exact finderFiltered_mem _ _
  · rw [env_update_filter_view]
    exact envFiltered_sublist _ _
  · rw [env_update_filter_view]
    exact envFiltered_mem _ _

/-- Witness for `static_filter_correct`: in the spec's scenario `main.rs`
is kept by the filter and its lower-cased path contains `rs`. -/
theorem static_filter_correct_witness :
    strContains (lowerL ['m', 'a', 'i', 'n', '.', 'r', 's'])
      (lowerL ['r', 's']) = true :=
  (static_filter_correct ffScenario envScenario).2.1 _ (by decide)

/-- The query after a `handle_input` editing keystroke. -/
def keystrokeQuery (st : LiveSearchBrowser) : SearchKeystroke → List Char
  | .charKey c => st.search_query ++ [c]
  | .backspaceKey => st.search_query.dropLast

/-- **C4.** `perform_live_search` with a query of length < 2 clears the
results and spawns no process; with a query of length ≥ 2 it spawns exactly
one process and fully replaces the result set from that process's output.
Consequently each editing keystroke (character append, or backspace —
including one that leaves an empty or 1-character query) spawns exactly one
process when the resulting query has length ≥ 2 and none otherwise, the
result set being emptied in the latter case. -/
theorem live_search_spawn_policy (st : LiveSearchBrowser)
    (k : SearchKeystroke) (out : ProcOutput) :
    (st.search_query.length < 2 →
      (perform_live_search st out).1.results = []
      ∧ (perform_live_search st out).2 = 0)
    ∧ (2 ≤ st.search_query.length →
      (perform_live_search st out).2 = 1
      ∧ (perform_live_search st out).1.results =
        (if out.success then
          out.stdout_lines.filterMap (parse_ripgrep_line st.search_query)
        else []))
    ∧ (2 ≤ (keystrokeQuery st k).length →
        (st.handle_search_keystroke k out).2 = 1
        ∧ (st.handle_search_keystroke k out).1.results =
          (if out.success then
            out.stdout_lines.filterMap
              (parse_ripgrep_line (keystrokeQuery st k))
          else []))
    ∧ ((keystrokeQuery st k).length < 2 →
        (st.handle_search_keystroke k out).2 = 0
        ∧ (st.handle_search_keystroke k out).1.results = []) := by
  refine ⟨fun h1 => ?_, fun h2 => ?_, fun h2 => ?_, fun h1 => ?_⟩
  · rw [perform_live_search_short st out h1]
    exact ⟨rfl, rfl⟩
  · exact ⟨(perform_live_search_long st out h2).1,
      (perform_live_search_long st out h2).2.1⟩
  · cases k with
    | charKey c =>
      exact ⟨(perform_live_search_long _ out h2).1,
        (perform_live_search_long _ out h2).2.1⟩
    | backspaceKey =>
      have hne : st.search_query.dropLast.isEmpty = false := by
        by_cases h : st.search_query.dropLast.isEmpty = true
        · exfalso
          simp only [keystrokeQuery] at h2
          rw [List.isEmpty_iff.mp h] at h2
          simp at h2
        · simpa using h
      simp only [LiveSearchBrowser.handle_search_keystroke, hne,
        Bool.false_eq_true, if_false]
      exact ⟨(perform_live_search_long _ out h2).1,
        (perform_live_search_long _ out h2).2.1⟩
  · cases k with
    | charKey c =>
      have h' := perform_live_search_short
        { st with search_query := st.search_query ++ [c] } out h1
      simp [LiveSearchBrowser.handle_search_keystroke, h']
    | backspaceKey =>
      by_cases he : st.search_query.dropLast.isEmpty = true
      · simp [LiveSearchBrowser.handle_search_keystroke, he]
      · have hne : st.search_query.dropLast.isEmpty = false := by
          simpa using he
        simp only [LiveSearchBrowser.handle_search_keystroke, hne,
          Bool.false_eq_true, if_false]
        rw [perform_live_search_short _ out h1]
        exact ⟨rfl, rfl⟩

/-- Witness for `live_search_spawn_policy`: appending `'b'` to the query
`"a"` yields `"ab"` (length 2) and spawns exactly one search process. -/
theorem live_search_spawn_policy_witness :
    (liveScenario1.handle_search_keystroke (.charKey 'b')
      { success := true, stdout_lines := [] }).2 = 1 :=
  ((live_search_spawn_policy liveScenario1 (.charKey 'b')
    { success := true, stdout_lines := [] }).2.2.1 (by decide)).1

/-! ### Ripgrep output parsing (C9) -/

/-- `splitn` produces at most `n` pieces. -/
theorem splitn_length_le (sep : Char) :
    ∀ (n : Nat) (s : List Char), (splitn sep (n + 1) s).length ≤ n + 1
  | 0, s => by simp [splitn]
  | n + 1, s => by
    unfold splitn
    cases h : splitFirst sep s with
    | none => simp
    | some p =>
      obtain ⟨a, rest⟩ := p
      have := splitn_length_le sep n rest
      simp only [List.length_cons]
      omega

theorem length_filterMap_isSome {α β : Type} (f : α → Option β) (l : List α) :
    (l.filterMap f).length = (l.filter fun a => (f a).isSome).length := by
  induction l with
  | nil => rfl
  | cons a t ih =>
    cases h : f a <;>
      simp [List.filterMap_cons, List.filter_cons, h, ih]

theorem parse_ripgrep_line_shape (q line : List Char) (r : SearchResult)
    (h : parse_ripgrep_line q line = some r) :
    ∃ p mid c, splitn ':' 3 line = [p, mid, c]
      ∧ parseU32 mid = some r.line_number
      ∧ r.file_path = p ∧ r.line_content = c := by
  unfold parse_ripgrep_line at h
  by_cases hl : 3 ≤ (splitn ':' 3 line).length
  · have hle : (splitn ':' 3 line).length ≤ 3 := splitn_length_le ':' 2 line
    have h3 : (splitn ':' 3 line).length = 3 := le_antisymm hle hl
    obtain ⟨p, mid, c, hpc⟩ := List.length_eq_three.mp h3
    rw [hpc] at h
    simp at h
    cases hp : parseU32 mid with
    | none => rw [hp] at h; simp at h
    | some ln =>
      rw [hp] at h
      simp only [Option.some.injEq] at h
      refine ⟨p, mid, c, hpc, ?_, ?_, ?_⟩ <;> simp [hp, ← h]
  · simp [hl] at h

theorem parse_ripgrep_line_malformed (q line : List Char)
    (h : (splitn ':' 3 line).length < 3 ∨
      parseU32 ((splitn ':' 3 line).getD 1 []) = none) :
    parse_ripgrep_line q line = none := by
  unfold parse_ripgrep_line
  rcases h with h | h
  · simp [show ¬ 3 ≤ (splitn ':' 3 line).length from by omega]
  · by_cases hl : 3 ≤ (splitn ':' 3 line).length
    · simp only [hl, if_true]
      rw [h]
    · simp [hl]

/-- **C9.** Every output line is parsed against the three-field
`path:line_number:content` shape (split at the first two colons, second
field parsed as an unsigned integer); a line matching the shape yields
exactly those fields, a line failing it yields no result entry, and after a
successful search the result set is exactly the parses of the output lines,
so the reported match count (`results.len()`) equals the number of lines
that parsed. -/
theorem ripgrep_parse_discard (st : LiveSearchBrowser) (out : ProcOutput)
    (line : List Char) (r : SearchResult) :
    (parse_ripgrep_line st.search_query line = some r →
      ∃ p mid c, splitn ':' 3 line = [p, mid, c]
        ∧ parseU32 mid = some r.line_number
        ∧ r.file_path = p ∧ r.line_content = c)
    ∧ ((splitn ':' 3 line).length < 3 ∨
        parseU32 ((splitn ':' 3 line).getD 1 []) = none →
      parse_ripgrep_line st.search_query line = none)
    ∧ (2 ≤ st.search_query.length → out.success = true →
      (perform_live_search st out).1.results =
        out.stdout_lines.filterMap (parse_ripgrep_line st.search_query)
      ∧ (perform_live_search st out).1.results.length =
        (out.stdout_lines.filter
          fun l => (parse_ripgrep_line st.search_query l).isSome).length) := by
  refine ⟨parse_ripgrep_line_shape st.search_query line r,
    parse_ripgrep_line_malformed st.search_query line, fun h2 hs => ?_⟩
  have hres := (perform_live_search_long st out h2).2.1
  rw [hs] at hres
  simp only [if_true] at hres
  exact ⟨hres, by rw [hres]; exact length_filterMap_isSome _ _⟩

/-- Witness for `ripgrep_parse_discard`: the line `f:1:ab` parses into the
three fields `f`, `1`, `ab`. -/
theorem ripgrep_parse_discard_witness :
    ∃ p mid c,
      splitn ':' 3 ['f', ':', '1', ':', 'a', 'b'] = [p, mid, c]
      ∧ parseU32 mid =
          some (SearchResult.line_number
            { file_path := ['f'], line_number := 1,
              line_content := ['a', 'b'], matched_text := ['a', 'b'] })
      ∧ SearchResult.file_path
          { file_path := ['f'], line_number := 1,
            line_content := ['a', 'b'], matched_text := ['a', 'b'] } = p
      ∧ SearchResult.line_content
          { file_path := ['f'], line_number := 1,
            line_content := ['a', 'b'], matched_text := ['a', 'b'] } = c :=
  (ripgrep_parse_discard liveScenario { success := true, stdout_lines := [] }
    ['f', ':', '1', ':', 'a', 'b']
    { file_path := ['f'], line_number := 1,
      line_content := ['a', 'b'], matched_text := ['a', 'b'] }).1 (by decide)

/-! ## `image_preview.rs`: the ASCII image renderer -/

/-- The ASCII ramp `" .:-=+*#%@"` of `generate_ascii_preview`, from dark to
light, as the `Vec<char>` the code collects it into. -/
def asciiChars : List Char :=
  [' ', '.', ':', '-', '=', '+', '*', '#', '%', '@']

/-- The grayscale→ramp mapping inlined in `generate_ascii_preview` (lines
189–195): special-case `gray == 255`, otherwise scale linearly, then apply
the final defensive `min` clamp. -/
def rampIndex (gray : Nat) : Nat :=
  let char_index :=
    if gray = 255 then asciiChars.length - 1
    else gray * (asciiChars.length - 1) / 255
  min char_index (asciiChars.length - 1)

structure Rgb where
  r : Nat
  g : Nat
  b : Nat
  deriving DecidableEq, Repr

/-- An in-memory RGB image: dimensions plus pixel access (the image-decode
contract of §6: dimensions and bounds-checked pixel reads). -/
structure ImageM where
  width : Nat
  height : Nat
  pix : Nat → Nat → Rgb

/-- Round-half-away-from-zero of `a / b` (f64 `.round()` on the nonnegative
values arising here), in exact arithmetic. -/
def roundDiv (a b : Nat) : Nat := (2 * a + b) / (2 * b)

/-- `image`'s `resize_dimensions(width, height, nwidth, nheight, false)`:
the largest dimensions preserving the aspect ratio that fit within
`nwidth × nheight`, each at least 1.  The f64 ratio computation is modelled
in exact rational arithmetic (`ratio = min (nwidth/width) (nheight/height)`,
`nw = max (round (width*ratio)) 1`, `nh = max (round (height*ratio)) 1`);
the `u32::MAX` overflow guards are omitted, as every dimension in this use
is at most 200. -/
def resize_dimensions (width height nwidth nheight : Nat) : Nat × Nat :=
  if nwidth * height ≤ nheight * width then
    -- wratio ≤ hratio, so ratio = nwidth / width
    (max nwidth 1, max (roundDiv (height * nwidth) width) 1)
  else
    -- ratio = nheight / height
    (max (roundDiv (width * nheight) height) 1, max nheight 1)

/-- Nearest-neighbour source index for output cell `i` when resampling a
dimension of `src` pixels down or up to `dst` pixels (centre-aligned),
clamped to the source range. -/
def nnIndex (src dst i : Nat) : Nat :=
  min (src - 1) ((2 * i + 1) * src / (2 * dst))

/-- `DynamicImage::resize(nwidth, nheight, FilterType::Nearest)` followed by
`to_rgb8`: aspect-preserving dimensions, then nearest-neighbour sampling. -/
def ImageM.resize (img : ImageM) (nwidth nheight : Nat) : ImageM :=
  let wh := resize_dimensions img.width img.height nwidth nheight
  { width := wh.1, height := wh.2,
    pix := fun x y =>
      img.pix (nnIndex img.width wh.1 x) (nnIndex img.height wh.2 y) }

/-- Grayscale conversion `(0.299*r + 0.587*g + 0.114*b) as u8` in exact
arithmetic, truncated toward zero (the value is below 256 for 8-bit
inputs, so the `u8` cast never wraps). -/
def luma (p : Rgb) : Nat := (299 * p.r + 587 * p.g + 114 * p.b) / 1000

/-- `generate_ascii_preview` (lines 154–205): clamp the requested target to
`[1,200] × [1,100]`, resize preserving aspect ratio, then emit one ramp
character per resized pixel, each row followed by `'\n'`.  The Rust
function wraps this in `Ok(..)`: no branch of its body can fail, so the
embedding returns the string directly. -/
def generate_ascii_preview (img : ImageM) (target_width target_height : Nat) :
    List Char :=
  let safe_width := max (min target_width 200) 1
  let safe_height := max (min target_height 100) 1
  let resized := img.resize safe_width safe_height
  ((List.range resized.height).map fun y =>
    ((List.range resized.width).map fun x =>
      -- the loop re-checks `x < actual_width && y < actual_height`,
      -- which is always true for loop indices
      if x < resized.width ∧ y < resized.height then
        asciiChars.getD (rampIndex (luma (resized.pix x y))) ' '
      else ' ') ++ ['\n']).flatten

/-- **C5.** The grayscale→character mapping is monotonic on 8-bit gray
values, maps 255 exactly to the last ramp index, and always produces an
index strictly below the ramp length (so indexing the 10-character ramp
cannot go out of bounds). -/
theorem ramp_mapping_monotone :
    (∀ g1 g2, g1 < g2 → g2 ≤ 255 → rampIndex g1 ≤ rampIndex g2)
    ∧ rampIndex 255 = asciiChars.length - 1
    ∧ (∀ g, g ≤ 255 → rampIndex g < asciiChars.length) := by
  have hlen : asciiChars.length = 10 := rfl
  refine ⟨?_, by decide, ?_⟩
  · intro g1 g2 h12 h2
    unfold rampIndex
    rw [hlen]
    by_cases h255 : g2 = 255
    · subst h255
      simp
    · have h1 : g1 ≠ 255 := by omega
      simp only [h1, h255, if_false]
      exact min_le_min (Nat.div_le_div_right (Nat.mul_le_mul_right _ h12.le))
        le_rfl
  · intro g _
    unfold rampIndex
    rw [hlen]
    exact lt_of_le_of_lt (min_le_right _ (10 - 1)) (by norm_num)

/-- Witness for `ramp_mapping_monotone`: monotone at 3 < 7 and in bounds
at 200. -/
theorem ramp_mapping_monotone_witness :
    rampIndex 3 ≤ rampIndex 7 ∧ rampIndex 200 < asciiChars.length :=
  ⟨ramp_mapping_monotone.1 3 7 (by decide) (by decide),
    ramp_mapping_monotone.2.2 200 (by decide)⟩

/-! ### The renderer on 1×1 images (C7) -/

theorem resize_dimensions_1x1 (nw nh : Nat) (hw : 1 ≤ nw) (hh : 1 ≤ nh) :
    resize_dimensions 1 1 nw nh = (min nw nh, min nw nh) := by
  unfold resize_dimensions roundDiv
  by_cases h : nw * 1 ≤ nh * 1
  · have h' : nw ≤ nh := by omega
    have hr : (2 * (1 * nw) + 1) / (2 * 1) = nw := by omega
    simp only [h, if_true, hr]
    rw [Nat.min_eq_left h']
    simp [Nat.max_eq_left hw]
  · have h' : nh ≤ nw := by omega
    have hr : (2 * (1 * nh) + 1) / (2 * 1) = nh := by omega
    simp only [h, if_false, hr]
    rw [Nat.min_eq_right h']
    simp [Nat.max_eq_left hh]

/-- Resizing a 1×1 constant image to bounds `(nw, nh)` gives a constant
square image of side `min nw nh` (the aspect-preserving resize upscales). -/
theorem resize_1x1 (p : Rgb) (nw nh : Nat) (hw : 1 ≤ nw) (hh : 1 ≤ nh) :
    ImageM.resize { width := 1, height := 1, pix := fun _ _ => p } nw nh =
      { width := min nw nh, height := min nw nh, pix := fun _ _ => p } := by
  simp only [ImageM.resize, resize_dimensions_1x1 nw nh hw hh]

/-- One row of the preview of a constant image is a run of one repeated
ramp character. -/
theorem row_const (n y : Nat) (hy : y < n) (ch : Char) :
    ((List.range n).map fun x =>
      if x < n ∧ y < n then ch else ' ') = List.replicate n ch := by
  refine List.eq_replicate_iff.mpr ⟨by simp, ?_⟩
  intro b hb
  simp only [List.mem_map, List.mem_range] at hb
  obtain ⟨x, hx, hxb⟩ := hb
  rw [if_pos ⟨hx, hy⟩] at hxb
  exact hxb.symm

/-- The character grid emitted for a constant square image. -/
theorem preview_const_block (s : Nat) (ch : Char) :
    ((List.range s).map fun y =>
      ((List.range s).map fun x => if x < s ∧ y < s then ch else ' ')
        ++ ['\n']).flatten
    = (List.replicate s (List.replicate s ch ++ ['\n'])).flatten := by
  congr 1
  rw [List.map_congr_left (fun y hy => by
    rw [row_const s y (List.mem_range.mp hy) ch])]
  simp

/-- A 1×1 constant image serving as concrete input. -/
def onePixelImage : ImageM :=
  { width := 1, height := 1, pix := fun _ _ => { r := 0, g := 0, b := 0 } }

/-- **C7 counterexample.** At the dispatcher's requested target 40×15
(`render_image_to_terminal` calls `generate_ascii_preview(&img, 40, 15)`),
the aspect-preserving `resize` *upscales* a 1×1 image to 15×15, so the
renderer returns 240 characters (15 rows of 15 characters plus a newline
each), not one character plus a trailing newline. -/
theorem ascii_preview_1x1_upscaled :
    (generate_ascii_preview onePixelImage 40 15).length = 240
    ∧ ¬ ∃ c, generate_ascii_preview onePixelImage 40 15 = [c, '\n'] := by
  have h : (generate_ascii_preview onePixelImage 40 15).length = 240 := by
    decide
  refine ⟨h, ?_⟩
  rintro ⟨c, hc⟩
  rw [hc] at h
  simp at h

/-- **C7 (amended).** For a 1×1 input image the renderer returns an `s × s`
block of one repeated character with a newline after each row, where
`s = min(clamp(w), clamp(h))` is the smaller clamped target dimension; the
clamped dimensions are always at least 1 (a 0×0 request is clamped, not
rejected), and the output is one character plus a trailing newline exactly
in the `s = 1` case, e.g. for a 0×0 request.  The Rust function returns
this string under `Ok`: no input reaches an error return or a panic. -/
theorem ascii_preview_1x1_spec (p : Rgb) (tw th : Nat) :
    generate_ascii_preview
        { width := 1, height := 1, pix := fun _ _ => p } tw th =
      (List.replicate (min (max (min tw 200) 1) (max (min th 100) 1))
        (List.replicate (min (max (min tw 200) 1) (max (min th 100) 1))
          (asciiChars.getD (rampIndex (luma p)) ' ') ++ ['\n'])).flatten
    ∧ 1 ≤ min (max (min tw 200) 1) (max (min th 100) 1)
    ∧ (tw = 0 → th = 0 →
        generate_ascii_preview
            { width := 1, height := 1, pix := fun _ _ => p } tw th =
          [asciiChars.getD (rampIndex (luma p)) ' ', '\n']) := by
  have hsw : 1 ≤ max (min tw 200) 1 := le_max_right _ _
  have hsh : 1 ≤ max (min th 100) 1 := le_max_right _ _
  have hmain : generate_ascii_preview
      { width := 1, height := 1, pix := fun _ _ => p } tw th =
    (List.replicate (min (max (min tw 200) 1) (max (min th 100) 1))
      (List.replicate (min (max (min tw 200) 1) (max (min th 100) 1))
        (asciiChars.getD (rampIndex (luma p)) ' ') ++ ['\n'])).flatten := by
    unfold generate_ascii_preview
    simp only []
    rw [resize_1x1 p _ _ hsw hsh]
    exact preview_const_block (min (max (min tw 200) 1) (max (min th 100) 1))
      (asciiChars.getD (rampIndex (luma p)) ' ')
  refine ⟨hmain, le_min hsw hsh, fun h0w h0h => ?_⟩
  subst h0w
  subst h0h
  rw [hmain]
  rfl

/-- Witness for `ascii_preview_1x1_spec`: a 0×0 request on a black 1×1
pixel is clamped to 1×1 and yields one space plus a newline. -/
theorem ascii_preview_1x1_spec_witness :
    generate_ascii_preview onePixelImage 0 0 =
      [asciiChars.getD (rampIndex (luma { r := 0, g := 0, b := 0 })) ' ', '\n'] :=
  (ascii_preview_1x1_spec { r := 0, g := 0, b := 0 } 0 0).2.2 rfl rfl

/-! ## `image_preview.rs`: `generate_image_preview` (lines 59–115) -/

/-- The outcome of the `image::open` call inside `generate_image_preview`'s
`catch_unwind` closure: a decoded image with its dimensions and channel
count, a decode error carrying its display message, or a panic unwinding
out of the image library (caught by `catch_unwind`). -/
inductive ImageOpenOutcome where
  | opened (width height channels : Nat)
  | failed (errMsg : String)
  | panicked
  deriving DecidableEq, Repr

/-- `generate_image_preview`, as a function of the file name, the
`image::open` outcome, and the result of the inner
`render_image_to_terminal` call.  The function is total: every outcome —
including a decode error or a caught panic — maps to a returned message
string, never to a propagated failure. -/
def generate_image_preview (fileName : String) (outcome : ImageOpenOutcome)
    (renderResult : Except String String) : String :=
  match outcome with
  | .panicked =>
    "🖼️ Image file: " ++ fileName ++
      "\n❌ Panic occurred during image processing"
  | .failed e =>
    "🖼️ Image file: " ++ fileName ++ "\n❌ Error loading image: " ++ e
  | .opened width height channels =>
    if 50000 < width ∨ 50000 < height then
      "🖼️ Image: " ++ fileName ++ "\n❌ Image too large for preview (" ++
        toString width ++ "x" ++ toString height ++ ")"
    else
      let header := "🖼️ Image: " ++ fileName ++ "\n" ++
        "📐 Dimensions: " ++ toString width ++ "x" ++ toString height ++
        "\n" ++ "🎨 Channels: " ++ toString channels ++ "\n"
      match renderResult with
      | .ok terminal_preview =>
        if terminal_preview.trim.isEmpty = false then
          header ++ "\n📺 Terminal Preview:\n" ++ terminal_preview
        else header
      | .error _ => header ++ "\n📺 ASCII preview unavailable for this image"

/-- **C6.** `generate_image_preview` is total over every decode outcome —
including an image-library error and a caught panic — always returning a
message string: a decode error yields the `Error loading image` text
carrying the library's message, and a caught panic yields the fixed
`Panic occurred during image processing` diagnostic; no outcome propagates
a failure out of the function. -/
theorem image_preview_error_handling (fileName : String)
    (outcome : ImageOpenOutcome) (renderResult : Except String String) :
    (∃ s : String, generate_image_preview fileName outcome renderResult = s)
    ∧ (outcome = .panicked →
        generate_image_preview fileName outcome renderResult =
          "🖼️ Image file: " ++ fileName ++
            "\n❌ Panic occurred during image processing")
    ∧ (∀ e, outcome = .failed e →
        generate_image_preview fileName outcome renderResult =
          "🖼️ Image file: " ++ fileName ++ "\n❌ Error loading image: " ++ e) :=
  ⟨⟨_, rfl⟩, fun h => by subst h; rfl, fun e h => by subst h; rfl⟩

/-- Witness for `image_preview_error_handling`: a panic while decoding
`broken.png` becomes the fixed diagnostic message. -/
theorem image_preview_error_handling_witness :
    generate_image_preview "broken.png" .panicked (.error "oops") =
      "🖼️ Image file: " ++ "broken.png" ++
        "\n❌ Panic occurred during image processing" :=
  (image_preview_error_handling "broken.png" .panicked (.error "oops")).2.1 rfl

/-! ## Text-file previews: the 50-line truncation (C8)

`FileExplorer::load_file_preview` (explore.rs lines 163–167) and
`FileFinder::load_file_preview` (find.rs lines 135–139) share the text
branch `content.lines().take(50).collect::<Vec<_>>().join("\n")`. -/

/-- Split on `'\n'`, keeping every piece (the pieces between newlines). -/
def splitNl : List Char → List (List Char)
  | [] => [[]]
  | c :: t =>
    if c = '\n' then [] :: splitNl t
    else
      match splitNl t with
      | [] => [[c]]
      | p :: ps => (c :: p) :: ps

/-- Strip one trailing `'\r'`. -/
def stripCr (l : List Char) : List Char :=
  if l.getLast? = some '\r' then l.dropLast else l

/-- Rust `str::lines()`: split at `'\n'`, strip the `'\r'` of a `"\r\n"`
line ending, and treat the final line ending as a terminator (a trailing
empty piece is dropped; an unterminated final line is kept verbatim). -/
def rustLines (s : List Char) : List (List Char) :=
  let parts := splitNl s
  parts.dropLast.map stripCr ++
    (if parts.getLast? = some [] then [] else [parts.getLast?.getD []])

/-- Rust `Vec<&str>::join("\n")`. -/
def joinNl : List (List Char) → List Char
  | [] => []
  | [p] => p
  | p :: q :: rest => p ++ '\n' :: joinNl (q :: rest)

/-- The text branch of `load_file_preview`: keep only the first 50 lines
of the successfully read content and join them with newlines. -/
def load_file_preview_text (content : List Char) : List Char :=
  joinNl ((rustLines content).take 50)

/-! ### Line-counting lemmas for the truncation bound -/

theorem mem_of_getLast?_eq {α : Type} {l : List α} {a : α}
    (h : l.getLast? = some a) : a ∈ l := by
  induction l with
  | nil => simp at h
  | cons b t ih =>
    cases t with
    | nil =>
      simp at h
      simp [h]
    | cons c t2 =>
      rw [List.getLast?_cons_cons] at h
      exact List.mem_cons_of_mem b (ih h)

theorem splitNl_ne_nil (s : List Char) : splitNl s ≠ [] := by
  cases s with
  | nil => simp [splitNl]
  | cons c t =>
    unfold splitNl
    by_cases h : c = '\n'
    · simp [h]
    · simp only [h, if_false]
      cases hs : splitNl t <;> simp

theorem splitNl_length (s : List Char) :
    (splitNl s).length = s.count '\n' + 1 := by
  induction s with
  | nil => rfl
  | cons c t ih =>
    by_cases h : c = '\n'
    · subst h
      simp [splitNl, ih, List.count_cons]
    · unfold splitNl
      simp only [h, if_false]
      cases hs : splitNl t with
      | nil => exact absurd hs (splitNl_ne_nil t)
      | cons p ps =>
        rw [hs] at ih
        simp only [List.length_cons] at ih ⊢
        simp [List.count_cons, h, ← ih]

theorem splitNl_no_nl (s : List Char) : ∀ p ∈ splitNl s, p.count '\n' = 0 := by
  induction s with
  | nil =>
    intro p hp
    simp [splitNl] at hp
    simp [hp]
  | cons c t ih =>
    intro p hp
    by_cases h : c = '\n'
    · subst h
      rw [show splitNl ('\n' :: t) = [] :: splitNl t from by simp [splitNl]]
        at hp
      rcases List.mem_cons.mp hp with rfl | hp
      · rfl
      · exact ih p hp
    · unfold splitNl at hp
      simp only [h, if_false] at hp
      cases hs : splitNl t with
      | nil => exact absurd hs (splitNl_ne_nil t)
      | cons q qs =>
        rw [hs] at hp
        simp only [List.mem_cons] at hp
        rcases hp with rfl | hp
        · have hq := ih q (by rw [hs]; exact List.mem_cons_self q qs)
          simp [List.count_cons, h, hq]
        · exact ih p (by rw [hs]; exact List.mem_cons_of_mem q hp)

theorem stripCr_count_nl (l : List Char) (h : l.count '\n' = 0) :
    (stripCr l).count '\n' = 0 := by
  unfold stripCr
  split
  · rw [List.count_eq_zero] at h ⊢
    intro hmem
    exact h (List.dropLast_subset l hmem)
  · exact h

theorem rustLines_no_nl (s : List Char) :
    ∀ p ∈ rustLines s, p.count '\n' = 0 := by
  intro p hp
  unfold rustLines at hp
  simp only [List.mem_append] at hp
  rcases hp with hp | hp
  · simp only [List.mem_map] at hp
    obtain ⟨q, hq, hqp⟩ := hp
    have hq' : q ∈ splitNl s := List.dropLast_subset _ hq
    rw [← hqp]
    exact stripCr_count_nl q (splitNl_no_nl s q hq')
  · split at hp
    · simp at hp
    · simp only [List.mem_singleton] at hp
      subst hp
      cases hlast : (splitNl s).getLast? with
      | none => exact absurd (List.getLast?_eq_none_iff.mp hlast) (splitNl_ne_nil s)
      | some q =>
        simp only [hlast, Option.getD_some]
        exact splitNl_no_nl s q (mem_of_getLast?_eq hlast)

theorem rustLines_length_le (s : List Char) :
    (rustLines s).length ≤ s.count '\n' + 1 := by
  unfold rustLines
  have hparts := splitNl_length s
  have hd : (splitNl s).dropLast.length = (splitNl s).length - 1 :=
    List.length_dropLast _
  simp only [List.length_append, List.length_map]
  split <;> simp <;> omega

theorem count_joinNl (L : List (List Char))
    (h : ∀ p ∈ L, p.count '\n' = 0) :
    (joinNl L).count '\n' = L.length - 1 := by
  induction L with
  | nil => rfl
  | cons p rest ih =>
    cases rest with
    | nil =>
      simp [joinNl, h p (List.mem_cons_self p [])]
    | cons q rest2 =>
      have hp0 := h p (List.mem_cons_self p _)
      have hrec := ih fun r hr => h r (List.mem_cons_of_mem p hr)
      simp only [joinNl, List.count_append, List.count_cons, hp0,
        beq_self_eq_true, if_true] at hrec ⊢
      simp only [List.length_cons] at hrec ⊢
      omega

/-- Fifty one-character lines joined by newlines. -/
def fiftyALines : List Char := joinNl (List.replicate 50 ['a'])

/-- Fifty-one one-character lines joined by newlines. -/
def fiftyOneALines : List Char := joinNl (List.replicate 51 ['a'])

/-- **C8 counterexample.** A 51-line file and its 50-line prefix produce
*identical* previews: the preview pipeline returns only the joined first
50 lines and records no `truncated` flag anywhere, so no preview (nor any
other session state) is "marked truncated=true exactly when the content
exceeded the 50-line bound" — content that exceeded the bound is
indistinguishable from content that exactly met it. -/
theorem preview_no_truncation_flag :
    load_file_preview_text fiftyOneALines = load_file_preview_text fiftyALines
    ∧ (rustLines fiftyOneALines).length = 51
    ∧ (rustLines fiftyALines).length = 50 := by
  refine ⟨?_, ?_, ?_⟩ <;> decide

/-- **C8 (amended).** For every file whose contents read successfully as
text, the preview is exactly the first 50 lines joined by newlines (a
longer file is truncated), hence the preview never contains more than 50
lines, and a file of at most 50 lines is rendered in full; no
truncated-flag is recorded (see the counterexample). -/
theorem preview_first_fifty (content : List Char) :
    load_file_preview_text content = joinNl ((rustLines content).take 50)
    ∧ (rustLines (load_file_preview_text content)).length ≤ 50
    ∧ ((rustLines content).length ≤ 50 →
      load_file_preview_text content = joinNl (rustLines content)) := by
  refine ⟨rfl, ?_, fun hle => by
    rw [load_file_preview_text, List.take_of_length_le hle]⟩
  have hno : ∀ p ∈ (rustLines content).take 50, p.count '\n' = 0 :=
    fun p hp => rustLines_no_nl content p (List.take_subset _ _ hp)
  have hcount : (load_file_preview_text content).count '\n' =
      ((rustLines content).take 50).length - 1 := count_joinNl _ hno
  have hlen := rustLines_length_le (load_file_preview_text content)
  have htake : ((rustLines content).take 50).length ≤ 50 := by
    rw [List.length_take]
    exact min_le_left _ _
  omega

/-- Witness for `preview_first_fifty`: a two-line file is previewed in
full. -/
theorem preview_first_fifty_witness :
    load_file_preview_text ['a', '\n', 'b'] =
      joinNl (rustLines ['a', '\n', 'b']) :=
  (preview_first_fifty ['a', '\n', 'b']).2.2 (by decide)

end TerminalTools
